import Mathlib

/-!
# Book API: authentication and authorization pipeline

A shallow embedding of `main.go`: the `login` handler, the `checkMiddleware`
role check, the other handlers of the file, and the route stack that `main`
registers, together with the walk of one request along that stack.

What `main.go` imports is treated in two ways.  Functions whose results the
file only passes on (body parsing, token signing and parsing, route pattern
matching, the swagger handler, template rendering, file upload) and the five
book handlers, which live in another file of the repository, are fields of the
record `Deps`; the theorems hold for every value of it.  The control flow of
the frameworks that the file relies on is written out: the route stack of
fiber with `c.Next()`, the token middleware of `github.com/gofiber/jwt/v2`
with its default extractor and error handler, and `Time.Add` on `int64`
seconds.

A Go string is a sequence of bytes.  Where the program only compares strings
and passes them on, the model has a `String`, which stands for the Go string
of its UTF-8 encoding; where a string is measured and sliced, in the token
middleware, the model has the bytes themselves.

The definitions come first, the lemmas and theorems after them.
-/

namespace BookApi

/-! ## Go values -/

/-- A Go `interface{}` value as it can occur in a claims map. `nil` is also what
indexing a map at a missing key gives. A finite `float64` is given by its exact value. -/
inductive Value where
  | nil
  | bool (b : Bool)
  | str (s : String)
  | int64 (n : Int)
  | float64 (value : ℚ)
  | json (raw : String)
  deriving DecidableEq, Repr

/-- The type `jwt.MapClaims`, a `map[string]interface{}`, kept as an association list
with at most one entry per key. -/
abbrev MapClaims := List (String × Value)

/-- Map indexing `m[k]`: the stored value, or the nil interface when the key is absent. -/
def MapClaims.get (m : MapClaims) (k : String) : Value :=
  (m.lookup k).getD Value.nil

/-- Map assignment `m[k] = v`. -/
def MapClaims.set (m : MapClaims) (k : String) (v : Value) : MapClaims :=
  if m.any (fun p => p.1 == k) then
    m.map (fun p => if p.1 == k then (k, v) else p)
  else
    m ++ [(k, v)]

/-- The keys of a claims map. -/
def MapClaims.keys (m : MapClaims) : List String := m.map Prod.fst

/-! ## Time -/

/-- Reduction to the range of `int64`: arithmetic on `int64` wraps around. -/
def wrap64 (x : Int) : Int :=
  (x + 9223372036854775808) % 18446744073709551616 - 9223372036854775808

/-- The constant `unixToInternal` of package `time`: the seconds from January 1 of
year 1 to the Unix epoch. -/
def unixToInternal : Int := 62135596800

/-- A wall-clock reading as package `time` keeps it once the monotonic part is set
aside: the `int64` seconds since January 1 of year 1 and the nanoseconds within
that second. -/
structure Time where
  ext : Int
  nsec : Nat
  ext_ge : -9223372036854775808 ≤ ext
  ext_lt : ext < 9223372036854775808
  nsec_lt : nsec < 1000000000

/-- The function `unixTime` behind `time.Unix`: the reading of an `int64` count of Unix
seconds and a nanosecond count below one second. -/
def unixTime (sec : Int) (nsec : Nat) (h : nsec < 1000000000) : Time :=
  ⟨wrap64 (sec + unixToInternal), nsec, by unfold wrap64; omega, by unfold wrap64; omega, h⟩

/-- A `time.Duration`, counted in nanoseconds. -/
abbrev Duration := Int

/-- The constant `time.Hour`. -/
def Hour : Duration := 3600 * 1000000000

/-- Integer division of Go, which truncates toward zero, by a positive literal. -/
def quo (a b : Int) : Int :=
  if 0 ≤ a then a / b else -((-a) / b)

/-- The remainder that goes with `quo`; it has the sign of the dividend. -/
def rem (a b : Int) : Int :=
  if 0 ≤ a then a % b else -((-a) % b)

/-- The method `addSec`: the sum of the seconds wraps as `int64` does, and a sum that
went the wrong way is replaced by the largest or smallest count. -/
def Time.addSec (t : Time) (d : Int) : Time :=
  let sum := wrap64 (t.ext + d)
  if decide (sum > t.ext) = decide (d > 0) then
    ⟨sum, t.nsec, by simp only [sum, wrap64]; omega, by simp only [sum, wrap64]; omega,
      t.nsec_lt⟩
  else if d > 0 then
    ⟨9223372036854775807, t.nsec, by decide, by decide, t.nsec_lt⟩
  else
    ⟨-9223372036854775807, t.nsec, by decide, by decide, t.nsec_lt⟩

/-- The method `Time.Add`: whole seconds of the duration go to the seconds, the
remainder to the nanoseconds, with a carry or borrow of one second. -/
def Time.Add (t : Time) (d : Duration) : Time :=
  let dsec : Int := quo d 1000000000
  let nsec : Int := (t.nsec : Int) + rem d 1000000000
  if h1 : nsec ≥ 1000000000 then
    Time.addSec ⟨t.ext, (nsec - 1000000000).toNat, t.ext_ge, t.ext_lt, by
      have h := t.nsec_lt
      simp only [nsec, rem] at h1 ⊢
      split at h1 <;> omega⟩ (dsec + 1)
  else if h2 : nsec < 0 then
    Time.addSec ⟨t.ext, (nsec + 1000000000).toNat, t.ext_ge, t.ext_lt, by
      have h := t.nsec_lt
      simp only [nsec, rem] at h2 ⊢
      split at h2 <;> omega⟩ (dsec - 1)
  else
    Time.addSec ⟨t.ext, nsec.toNat, t.ext_ge, t.ext_lt, by omega⟩ dsec

/-- The method `Time.Unix`: the `int64` seconds since the Unix epoch. -/
def Time.Unix (t : Time) : Int := wrap64 (t.ext - unixToInternal)

/-! ## Data of `main.go` -/

/-- The struct `Book`. -/
structure Book where
  ID : Int
  Title : String
  Author : String
  deriving DecidableEq, Repr

/-- The struct `User`. -/
structure User where
  Email : String
  Password : String
  deriving DecidableEq, Repr

/-- The package variable `memberUser`. -/
def memberUser : User :=
  ⟨"user@example.com", "password123"⟩

/-! ## Tokens -/

/-- The `Claims` interface of a token: the map form, or some other claims type. -/
inductive Claims where
  | mapClaims (m : MapClaims)
  | custom (desc : String)
  deriving DecidableEq, Repr

/-- The struct `jwt.Token`, reduced to the signing method name and the claims. -/
structure Token where
  Method : String
  Claims : Claims
  deriving DecidableEq, Repr

/-- The name of `jwt.SigningMethodHS256`. -/
def SigningMethodHS256 : String := "HS256"

/-- The constructor `jwt.New`: a token with the given method and an empty claims map. -/
def jwtNew (method : String) : Token :=
  ⟨method, Claims.mapClaims []⟩

/-- Why parsing and validating a token string failed. -/
inductive VerificationError where
  | malformed
  | invalidSignature
  | expired
  | unverifiable
  deriving DecidableEq, Repr

/-! ## HTTP values -/

/-- The struct `fiber.Error`. -/
structure FiberError where
  Code : Nat
  Message : String
  deriving DecidableEq, Repr

def StatusOK : Nat := 200
def StatusBadRequest : Nat := 400
def StatusUnauthorized : Nat := 401
def StatusInternalServerError : Nat := 500

/-- The value `fiber.ErrUnauthorized`. -/
def ErrUnauthorized : FiberError := ⟨StatusUnauthorized, "Unauthorized"⟩

/-- A response body. -/
inductive Body where
  | empty
  | text (s : String)
  | json (fields : List (String × Value))
  deriving DecidableEq, Repr

/-- How a handler ends: it wrote a response and returned nil, it returned an error
for the error handler of the framework, or it panicked. -/
inductive Outcome where
  | sent (status : Nat) (body : Body)
  | error (e : FiberError)
  | panic
  deriving DecidableEq, Repr

/-- The status code the client sees: the one written, or the code of the returned
`fiber.Error`. A panic sends nothing. -/
def Outcome.status : Outcome → Option Nat
  | Outcome.sent st _ => some st
  | Outcome.error e => some e.Code
  | Outcome.panic => none

/-- The token field of a JSON response body, when there is one. -/
def Outcome.token : Outcome → Option Value
  | Outcome.sent _ (Body.json fields) => fields.lookup "token"
  | _ => none

/-- A Go string as the bytes it is made of. -/
abbrev Bytes := List Nat

/-- The UTF-8 encoding of a character. -/
def utf8Char (c : Char) : Bytes :=
  let n := c.toNat
  if n < 128 then [n]
  else if n < 2048 then [192 + n / 64, 128 + n % 64]
  else if n < 65536 then [224 + n / 4096, 128 + n / 64 % 64, 128 + n % 64]
  else [240 + n / 262144, 128 + n / 4096 % 64, 128 + n / 64 % 64, 128 + n % 64]

/-- The UTF-8 encoding of a list of characters. -/
def utf8List : List Char → Bytes
  | [] => []
  | c :: cs => utf8Char c ++ utf8List cs

/-- The bytes of the Go string that a `String` of the model stands for. -/
def utf8Bytes (s : String) : Bytes := utf8List s.data

/-- An incoming request. A header is kept under its canonical name, with its value as
bytes. -/
structure Request where
  method : String
  path : String
  headers : List (String × Bytes)
  body : String
  deriving DecidableEq, Repr

/-- The per-request context `*fiber.Ctx`: the request and the `Locals` store. -/
structure Ctx where
  req : Request
  locals : List (String × Token)
  deriving DecidableEq, Repr

/-- The call `c.Get(key)`: the header value, or the empty string. -/
def Ctx.Get (c : Ctx) (key : String) : Bytes :=
  (c.req.headers.lookup key).getD []

/-- The call `c.Locals(key)` used as a getter. -/
def Ctx.Locals (c : Ctx) (key : String) : Option Token :=
  c.locals.lookup key

/-- The call `c.Locals(key, value)` used as a setter. -/
def Ctx.setLocals (c : Ctx) (key : String) (tok : Token) : Ctx :=
  ⟨c.req, (key, tok) :: c.locals⟩

/-! ## What comes from outside `main.go` -/

/-- The action of the swagger handler on a request: it answers, or it hands the
request on with `c.Next()`. -/
inductive SwaggerAct where
  | respond (o : Outcome)
  | next
  deriving DecidableEq, Repr

/-- The environment `main.go` runs in: the third-party functions it calls and the
handlers of the repository that are defined outside `main.go`. -/
structure Deps where
  /-- The result of `godotenv.Load()`. -/
  Load : Except String Unit
  /-- The call `os.Getenv`, reading the process environment after the load; the empty
  string for an unset variable. -/
  Getenv : String → String
  /-- The call `c.BodyParser(user)` on a fresh `User`. -/
  BodyParser : Request → Except String User
  /-- The method `token.SignedString(key)`. -/
  SignedString : Token → String → Except String String
  /-- The call `jwt.Parse` as the middleware makes it: key, clock reading, and the
  token string that the extractor cut out of the header. -/
  Parse : String → Time → Bytes → Except VerificationError Token
  /-- Whether a route registered for a method and a path pattern matches a request. -/
  routeMatch : String → String → Request → Bool
  /-- The handler `swagger.HandlerDefault`. -/
  swagger : Ctx → SwaggerAct
  /-- The five book handlers, defined in another file of the repository: each answers
  and may change the books. -/
  getBooks : Ctx → List Book → Outcome × List Book
  getBook : Ctx → List Book → Outcome × List Book
  createBook : Ctx → List Book → Outcome × List Book
  updateBook : Ctx → List Book → Outcome × List Book
  deleteBook : Ctx → List Book → Outcome × List Book
  /-- The call `c.FormFile(key)`: the file name, or an error text. -/
  FormFile : Ctx → String → Except String String
  /-- The call `c.SaveFile(file, path)`. -/
  SaveFile : String → String → Except String Unit
  /-- The call `c.Render(name, bind)`. -/
  Render : String → List (String × String) → Outcome
  /-- What the router answers when the stack is exhausted. -/
  notFound : Request → Outcome

/-! ## Handlers of `main.go` -/

/-- Lines 145 to 151 of `login`: the token built for a user at a clock reading.
`none` stands for a failed type assertion on the claims. -/
def loginToken (user : User) (now : Time) : Option Token :=
  let token := jwtNew SigningMethodHS256
  match token.Claims with
  | Claims.mapClaims claims =>
    let claims := claims.set "name" (Value.str user.Email)
    let claims := claims.set "role" (Value.str "admin")
    let claims := claims.set "exp" (Value.int64 (now.Add (Hour * 72)).Unix)
    some ⟨token.Method, Claims.mapClaims claims⟩
  | Claims.custom _ => none

/-- The handler `login`. -/
def login (d : Deps) (now : Time) (c : Ctx) : Outcome :=
  match d.BodyParser c.req with
  | Except.error err => Outcome.sent StatusBadRequest (Body.text err)
  | Except.ok user =>
    if user.Email != memberUser.Email || user.Password != memberUser.Password then
      Outcome.error ErrUnauthorized
    else
      match loginToken user now with
      | none => Outcome.panic
      | some token =>
        match d.SignedString token (d.Getenv "JWT_SECRET") with
        | Except.error _ =>
          Outcome.sent StatusInternalServerError (Body.text "Internal Server Error")
        | Except.ok t =>
          Outcome.sent StatusOK
            (Body.json [("message", Value.str "Login success"), ("token", Value.str t)])

/-- The books and the handlers entered so far while one request is served. -/
structure Server where
  books : List Book
  trace : List String
  deriving DecidableEq, Repr

/-- The rest of the chain, as `c.Next()` runs it. -/
abbrev Next := Ctx → Server → Outcome × Server

/-- A handler: clock reading, context, server state, rest of the chain. -/
abbrev Handler := Time → Ctx → Server → Next → Outcome × Server

/-- The middleware `checkMiddleware`. -/
def checkMiddleware (c : Ctx) (s : Server) (next : Next) : Outcome × Server :=
  match c.Locals "user" with
  | none => (Outcome.panic, s)
  | some user =>
    match user.Claims with
    | Claims.custom _ => (Outcome.panic, s)
    | Claims.mapClaims claims =>
      if claims.get "role" != Value.str "admin" then
        (Outcome.error ErrUnauthorized, s)
      else
        next c s

/-- The handler `uploadFile`. -/
def uploadFile (d : Deps) (c : Ctx) : Outcome :=
  match d.FormFile c "image" with
  | Except.error err => Outcome.sent StatusBadRequest (Body.text err)
  | Except.ok file =>
    match d.SaveFile file ("./uploads/" ++ file) with
    | Except.error err => Outcome.sent StatusInternalServerError (Body.text err)
    | Except.ok _ => Outcome.sent StatusOK (Body.text "File upload complete!")

/-- The handler `testHTML`. -/
def testHTML (d : Deps) (_c : Ctx) : Outcome :=
  d.Render "index" [("Title", "Hello, World!"), ("Name", "Nack")]

/-- The handler `getEnv`. -/
def getEnv (d : Deps) (_c : Ctx) : Outcome :=
  let secret := d.Getenv "SECRET"
  let secret := if secret == "" then "defaultsecret" else secret
  Outcome.sent StatusOK (Body.json [("SECRET", Value.str secret)])

/-! ## The token middleware -/

/-- The `Config` of the token middleware; `main` sets only the signing key. -/
structure Config where
  SigningKey : Option String

/-- The lower-case form of an ASCII letter; any other byte is left as it is. -/
def asciiLower (b : Nat) : Nat :=
  if 65 ≤ b ∧ b ≤ 90 then b + 32 else b

/-- The function `strings.EqualFold` for a second argument made of ASCII letters other
than k and s, such as the scheme `Bearer`: no character outside ASCII folds to one of
its letters, so the two agree when they agree byte by byte up to the case of ASCII
letters. -/
def equalFold (s t : Bytes) : Bool :=
  s.map asciiLower == t.map asciiLower

/-- The extractor of the middleware for the lookup `header:Authorization` with scheme
`Bearer`: the header must have more bytes than the scheme plus one separator, and
its first bytes must be the scheme up to case; what follows the separator byte is
the token. -/
def jwtFromHeader (header authScheme : String) (c : Ctx) : Except String Bytes :=
  let auth := c.Get header
  let l := (utf8Bytes authScheme).length
  if auth.length > l + 1 && equalFold (auth.take l) (utf8Bytes authScheme) then
    Except.ok (auth.drop (l + 1))
  else
    Except.error "Missing or malformed JWT"

/-- The text of a verification error; none of them is the text of the extractor. -/
def VerificationError.Error : VerificationError → String
  | VerificationError.malformed => "token contains an invalid number of segments"
  | VerificationError.invalidSignature => "signature is invalid"
  | VerificationError.expired => "Token is expired"
  | VerificationError.unverifiable => "token is unverifiable"

/-- The `ErrorHandler` the middleware installs when the configuration gives none, as in
`main`: 400 for the error of the extractor, 401 for every other error. -/
def defaultErrorHandler (err : String) : Outcome :=
  if err == "Missing or malformed JWT" then
    Outcome.sent StatusBadRequest (Body.text "Missing or malformed JWT")
  else
    Outcome.sent StatusUnauthorized (Body.text "Invalid or expired JWT")

/-- The middleware `jwtware.New(cfg)` with every option but the signing key at its
default: extract the bearer token, parse it with the key, store the token under
`user` and go on, or answer through the error handler. It panics without a key. -/
def jwtwareNew (d : Deps) (cfg : Config) : Option Handler :=
  match cfg.SigningKey with
  | none => none
  | some key =>
    some (fun now c s next =>
      match jwtFromHeader "Authorization" "Bearer" c with
      | Except.error err => (defaultErrorHandler err, s)
      | Except.ok auth =>
        match d.Parse key now auth with
        | Except.ok token => next (c.setLocals "user" token) s
        | Except.error err => (defaultErrorHandler err.Error, s))

/-! ## Routes -/

/-- A registered route: the name of its handler in `main.go`, the method (`none` for
`app.Use`), the path pattern and the handler. -/
structure Route where
  name : String
  method : Option String
  path : String
  handler : Handler

/-- Whether a route takes a request. A route of `app.Use` without a path takes all. -/
def Route.matches (d : Deps) (r : Route) (req : Request) : Bool :=
  match r.method with
  | none => true
  | some m => d.routeMatch m r.path req

/-- The route stack of the application, in registration order. -/
abbrev App := List Route

/-- A handler that never calls `c.Next()` and leaves the books alone. -/
def terminal (h : Time → Ctx → Outcome) : Handler :=
  fun now c s _ => (h now c, s)

/-- A handler of the book collection: it may change the books, it never calls `c.Next()`. -/
def onBooks (h : Ctx → List Book → Outcome × List Book) : Handler :=
  fun _ c s _ => ((h c s.books).1, ⟨(h c s.books).2, s.trace⟩)

/-- The swagger handler as a chain element. -/
def swaggerHandler (d : Deps) : Handler :=
  fun _ c s next =>
    match d.swagger c with
    | SwaggerAct.respond o => (o, s)
    | SwaggerAct.next => next c s

def App.Get (app : App) (path name : String) (h : Handler) : App :=
  app ++ [⟨name, some "GET", path, h⟩]

def App.Post (app : App) (path name : String) (h : Handler) : App :=
  app ++ [⟨name, some "POST", path, h⟩]

def App.Put (app : App) (path name : String) (h : Handler) : App :=
  app ++ [⟨name, some "PUT", path, h⟩]

def App.Delete (app : App) (path name : String) (h : Handler) : App :=
  app ++ [⟨name, some "DELETE", path, h⟩]

def App.Use (app : App) (name : String) (h : Handler) : App :=
  app ++ [⟨name, none, "/", h⟩]

/-- One request walking the stack: the first route that takes the request runs, and
its `c.Next()` resumes the walk behind it. Every handler entered is noted in the trace. -/
def dispatch (d : Deps) (now : Time) : App → Ctx → Server → Outcome × Server
  | [], c, s => (d.notFound c.req, s)
  | r :: rest, c, s =>
    if r.matches d c.req then
      r.handler now c ⟨s.books, s.trace ++ [r.name]⟩ (dispatch d now rest)
    else
      dispatch d now rest c s

/-- Serving one request against the books. -/
def serve (d : Deps) (now : Time) (app : App) (req : Request) (books : List Book) :
    Outcome × Server :=
  dispatch d now app ⟨req, []⟩ ⟨books, []⟩

/-! ## `main` -/

/-- How `main` ends: `log.Fatal`, a panic, or `app.Listen` on an address, with the
signing key that was handed to the token middleware, the route stack and the books
as they are then. -/
inductive Startup where
  | fatal (msg : String)
  | panic
  | listening (addr : String) (signingKey : String) (app : App) (books : List Book)

/-- The function `main`. -/
def main (d : Deps) : Startup :=
  match d.Load with
  | Except.error _ => Startup.fatal "load .env error"
  | Except.ok _ =>
    let app : App := []
    let app := app.Get "/swagger/*" "swagger.HandlerDefault" (swaggerHandler d)
    let books : List Book := []
    let books := books ++ [⟨1, "1984", "George Orwell"⟩]
    let books := books ++ [⟨2, "The Great Gatsby", "F. Scott Fitzgerald"⟩]
    let app := app.Post "/login" "login" (terminal (login d))
    match jwtwareNew d ⟨some (d.Getenv "JWT_SECRET")⟩ with
    | none => Startup.panic
    | some jw =>
      let app := app.Use "jwtware" jw
      let app := app.Use "checkMiddleware" (fun _ => checkMiddleware)
      let app := app.Get "/books" "getBooks" (onBooks d.getBooks)
      let app := app.Get "/books/:id" "getBook" (onBooks d.getBook)
      let app := app.Post "/books" "createBook" (onBooks d.createBook)
      let app := app.Put "/books/:id" "updateBook" (onBooks d.updateBook)
      let app := app.Delete "/books/:id" "deleteBook" (onBooks d.deleteBook)
      let app := app.Post "/upload" "uploadFile" (terminal (fun _ => uploadFile d))
      let app := app.Get "/test-html" "testHTML" (terminal (fun _ => testHTML d))
      let app := app.Get "/config" "getEnv" (terminal (fun _ => getEnv d))
      Startup.listening ":8080" (d.Getenv "JWT_SECRET") app books

/-! ## Token codec

The Token Codec of the spec is the signing library `github.com/golang-jwt/jwt/v4`,
which is not part of `main.go`; it is modelled from section 4.2 of the spec. The spec
leaves the serialized form open. The model fixes one in which every value can be read
back: numbers in binary digits with a closing semicolon, strings as their length and
their characters, the payload and the signature joined by a dot. The keyed signature
function is a parameter throughout. -/

/-- Modelled from the spec: the Claims of section 3, an identity, a role and an expiry
in Unix seconds. The signing library that `main.go` imports is not part of the file. -/
structure SpecClaims where
  identity : String
  role : String
  expiresAt : Int
  deriving DecidableEq, Repr

/-- The binary digits of a number, lowest first, at most `fuel` of them. -/
def bitsAux : Nat → Nat → List Char
  | 0, _ => []
  | fuel + 1, n =>
    if n = 0 then [] else (if n % 2 = 1 then '1' else '0') :: bitsAux fuel (n / 2)

/-- Modelled from the spec: the serialized form of a number, its binary digits and a
closing semicolon. -/
def encNat (n : Nat) : List Char := bitsAux n n ++ [';']

/-- Read a serialized number off the front of a text. -/
def decNat : List Char → Option (Nat × List Char)
  | [] => none
  | c :: cs =>
    if c = ';' then some (0, cs)
    else if c = '0' then
      match decNat cs with
      | some (v, r) => some (2 * v, r)
      | none => none
    else if c = '1' then
      match decNat cs with
      | some (v, r) => some (2 * v + 1, r)
      | none => none
    else none

/-- Serialized numbers in a row. -/
def encList : List Nat → List Char
  | [] => []
  | n :: ns => encNat n ++ encList ns

/-- Read a given count of serialized numbers off the front of a text. -/
def decList : Nat → List Char → Option (List Nat × List Char)
  | 0, cs => some ([], cs)
  | k + 1, cs =>
    match decNat cs with
    | none => none
    | some (n, r) =>
      match decList k r with
      | none => none
      | some (ns, r2) => some (n :: ns, r2)

/-- Modelled from the spec: the serialized form of a string, its length and then its
characters as numbers. -/
def armor (s : String) : List Char :=
  encNat s.length ++ encList (s.data.map Char.toNat)

/-- Read a serialized string off the front of a text. -/
def unarmor (cs : List Char) : Option (String × List Char) :=
  match decNat cs with
  | none => none
  | some (k, r) =>
    match decList k r with
    | none => none
    | some (ns, r2) => some (String.mk (ns.map Char.ofNat), r2)

/-- Modelled from the spec: the serialized form of an integer, a sign and the absolute
value. -/
def encInt (e : Int) : List Char :=
  (if e < 0 then '-' else '+') :: encNat e.natAbs

/-- Read a serialized integer off the front of a text. -/
def decInt : List Char → Option (Int × List Char)
  | [] => none
  | c :: cs =>
    if c = '-' then
      match decNat cs with
      | some (v, r) => some (-(v : Int), r)
      | none => none
    else if c = '+' then
      match decNat cs with
      | some (v, r) => some ((v : Int), r)
      | none => none
    else none

/-- Text made of the five characters that serialized numbers, strings and integers are
written in. -/
def plain (cs : List Char) : Prop :=
  ∀ c ∈ cs, c = '0' ∨ c = '1' ∨ c = ';' ∨ c = '+' ∨ c = '-'

/-- Modelled from the spec: the serialized claims that `issue` signs, with the name of
the algorithm in front. -/
def payload (alg : String) (c : SpecClaims) : List Char :=
  armor alg ++ (armor c.identity ++ (armor c.role ++ encInt c.expiresAt))

/-- Read algorithm and claims back from a payload; nothing may be left over. -/
def parsePayload (p : List Char) : Option (String × SpecClaims) :=
  match unarmor p with
  | none => none
  | some (alg, r1) =>
    match unarmor r1 with
    | none => none
    | some (identity, r2) =>
      match unarmor r2 with
      | none => none
      | some (role, r3) =>
        match decInt r3 with
        | some (e, []) => some (alg, ⟨identity, role, e⟩)
        | _ => none

/-- Cut a text at its first dot. -/
def splitDot : List Char → Option (List Char × List Char)
  | [] => none
  | c :: cs =>
    if c = '.' then some ([], cs)
    else
      match splitDot cs with
      | some (p, s) => some (c :: p, s)
      | none => none

/-- Modelled from the spec: `issue(claims)` of the Token Codec of section 4.2, which
`main.go` takes from the signing library. It serializes the claims and computes a
signature over the serialized form with the signing key; the token is the serialized
claims, a dot, and the serialized signature. The keyed signature function `mac` is a
parameter. -/
def issue (mac : String → String → String) (key alg : String) (c : SpecClaims) : String :=
  String.mk (payload alg c ++ '.' :: armor (mac key (String.mk (payload alg c))))

/-- Modelled from the spec: `verify(token)` of the Token Codec of section 4.2, which
`main.go` takes from the signing library through the token middleware. It decodes
the structure, recomputes the signature over the payload with the same key and
rejects a mismatch before it reads the claims, holds the token to the one algorithm
of the deployment, and rejects a token whose `expiresAt` the current time has reached. -/
def verify (mac : String → String → String) (key : String) (now : Time) (t : String) :
    Except VerificationError SpecClaims :=
  match splitDot t.data with
  | none => Except.error VerificationError.malformed
  | some (p, s) =>
    if armor (mac key (String.mk p)) != s then
      Except.error VerificationError.invalidSignature
    else
      match parsePayload p with
      | none => Except.error VerificationError.malformed
      | some (alg, c) =>
        if alg != SigningMethodHS256 then
          Except.error VerificationError.unverifiable
        else if now.Unix ≥ c.expiresAt then
          Except.error VerificationError.expired
        else
          Except.ok c

/-- The natural number that the `float64` nearest to a natural number holds, ties to
the even mantissa: the number itself up to 2^53, and beyond that the number rounded
to 53 binary digits. -/
def roundFloat64 (a : Nat) : Nat :=
  if a ≤ 9007199254740992 then a
  else
    let k := (bitsAux a a).length - 53
    let q := a / 2 ^ k
    let r := a % 2 ^ k
    if r > 2 ^ (k - 1) ∨ (r = 2 ^ (k - 1) ∧ q % 2 = 1) then (q + 1) * 2 ^ k else q * 2 ^ k

/-- The `float64` nearest to an `int64`, which is what reading a whole number from
serialized claims gives. -/
def float64OfInt (n : Int) : ℚ :=
  if n < 0 then -(roundFloat64 n.natAbs : ℚ) else (roundFloat64 n.natAbs : ℚ)

/-- Modelled from the spec: the Claims that a token of the program carries, read from
its claims map: the name, the role, and the expiry, which is an `int64` when `login`
has set it and a whole `float64` when it was read from a token string. -/
def claimsOf (tok : Token) : Option SpecClaims :=
  match tok.Claims with
  | Claims.custom _ => none
  | Claims.mapClaims m =>
    match m.get "name", m.get "role", m.get "exp" with
    | Value.str n, Value.str r, Value.int64 e => some ⟨n, r, e⟩
    | Value.str n, Value.str r, Value.float64 q =>
      if q.den = 1 then some ⟨n, r, q.num⟩ else none
    | _, _, _ => none

/-- Modelled from the spec: `token.SignedString(key)` on the Token Codec: the claims of
the token are issued under the method of the token. -/
def codecSignedString (mac : String → String → String) (tok : Token) (key : String) :
    Except String String :=
  match claimsOf tok with
  | some c => Except.ok (issue mac key tok.Method c)
  | none => Except.error "claims cannot be serialized"

/-- The text of a byte string of ASCII bytes. -/
def asciiChars : Bytes → Option (List Char)
  | [] => some []
  | b :: bs =>
    if b < 128 then
      match asciiChars bs with
      | some cs => some (Char.ofNat b :: cs)
      | none => none
    else none

/-- Modelled from the spec: `jwt.Parse` on the Token Codec: the token string is verified
and its claims come back as a claims map, numbers as `float64`, which is how a claims
map is read from serialized claims. -/
def codecParse (mac : String → String → String) (key : String) (now : Time) (t : Bytes) :
    Except VerificationError Token :=
  match asciiChars t with
  | none => Except.error VerificationError.malformed
  | some cs =>
    match verify mac key now (String.mk cs) with
    | Except.error e => Except.error e
    | Except.ok c =>
      Except.ok ⟨SigningMethodHS256, Claims.mapClaims
        [("name", Value.str c.identity), ("role", Value.str c.role),
         ("exp", Value.float64 (float64OfInt c.expiresAt))]⟩

/-- An environment whose signer and parser are the Token Codec over `mac`. -/
def withCodec (mac : String → String → String) (d : Deps) : Deps :=
  { d with SignedString := codecSignedString mac, Parse := codecParse mac }

/-! ## A concrete environment

A small instance of `Deps`, on which the theorems are run. -/

/-- Cut a character list at every occurrence of a separator. -/
def splitAt (sep : Char) : List Char → List Char → List (List Char)
  | acc, [] => [acc.reverse]
  | acc, ch :: rest =>
    if ch == sep then acc.reverse :: splitAt sep [] rest else splitAt sep (ch :: acc) rest

/-- Match path segments against pattern segments: a star takes the rest, a segment
that starts with a colon takes one non-empty segment, any other must be equal. -/
def segMatch : List (List Char) → List (List Char) → Bool
  | [], [] => true
  | [], _ :: _ => false
  | p :: ps, xs =>
    if p == ['*'] then true
    else
      match xs with
      | [] => false
      | x :: rest =>
        if p.head? == some ':' then !x.isEmpty && segMatch ps rest
        else p == x && segMatch ps rest

/-- A keyed checksum that stands in for the signature function. -/
def demoMac (key input : String) : String :=
  String.mk (Nat.toDigits 10
    ((key.data ++ '#' :: input.data).foldl (fun a ch => (a * 31 + ch.toNat) % 1000003) 7))

def goodBody : String := "email=user@example.com&password=password123"

/-- A body parser that knows three bodies. -/
def demoBodyParser (req : Request) : Except String User :=
  if req.body == goodBody then Except.ok ⟨"user@example.com", "password123"⟩
  else if req.body == "email=user@example.com&password=guess" then
    Except.ok ⟨"user@example.com", "guess"⟩
  else if req.body == "" then Except.ok ⟨"", ""⟩
  else Except.error "Unprocessable Entity"

/-- The environment with the given `JWT_SECRET`: segment-wise route matching, the Token
Codec over `demoMac`, and book handlers of which `deleteBook` drops the first book. -/
def demoDeps (secret : String) : Deps where
  Load := Except.ok ()
  Getenv := fun k => if k == "JWT_SECRET" then secret else ""
  BodyParser := demoBodyParser
  SignedString := codecSignedString demoMac
  Parse := codecParse demoMac
  routeMatch := fun m pat req =>
    m == req.method && segMatch (splitAt '/' [] pat.data) (splitAt '/' [] req.path.data)
  swagger := fun _ => SwaggerAct.respond (Outcome.sent StatusOK (Body.text "swagger"))
  getBooks := fun _ bs => (Outcome.sent StatusOK Body.empty, bs)
  getBook := fun _ bs => (Outcome.sent StatusOK Body.empty, bs)
  createBook := fun _ bs => (Outcome.sent StatusOK Body.empty, bs ++ [⟨3, "Dune", "Frank Herbert"⟩])
  updateBook := fun _ bs => (Outcome.sent StatusOK Body.empty, bs)
  deleteBook := fun _ bs => (Outcome.sent StatusOK Body.empty, bs.drop 1)
  FormFile := fun _ _ => Except.error "no file"
  SaveFile := fun _ _ => Except.ok ()
  Render := fun _ _ => Outcome.sent StatusOK (Body.text "<h1>Hello, World!</h1>")
  notFound := fun _ => Outcome.error ⟨404, "Not Found"⟩

/-- A clock reading: 2024-10-30 03:33:20 UTC and half a second. -/
def demoNow : Time := unixTime 1730259200 500000000 (by decide)

def loginRequest : Request := ⟨"POST", "/login", [], goodBody⟩

/-- The claims `login` issues for the member at `demoNow`. -/
def demoClaims : SpecClaims := ⟨"user@example.com", "admin", 1730518400⟩

/-- The token string `login` answers with at `demoNow` under the key `s3cret`. -/
def demoTokenString : String := issue demoMac "s3cret" "HS256" demoClaims

/-- A delete request without an `Authorization` header. -/
def bareDelete : Request := ⟨"DELETE", "/books/1", [], ""⟩

/-- A delete request that carries the token of `login`. -/
def signedDelete : Request :=
  ⟨"DELETE", "/books/1", [("Authorization", utf8Bytes ("Bearer " ++ demoTokenString))], ""⟩

/-- The same request with the scheme in lower case. -/
def lowerDelete : Request :=
  ⟨"DELETE", "/books/1", [("Authorization", utf8Bytes ("bearer " ++ demoTokenString))], ""⟩

/-- A clock reading one day after `demoNow`. -/
def demoLater : Time := unixTime 1730345600 0 (by decide)

/-- The token `login` builds for the member at `demoNow`. -/
def demoToken : Token :=
  ⟨"HS256", Claims.mapClaims
    [("name", Value.str "user@example.com"), ("role", Value.str "admin"),
     ("exp", Value.int64 1730518400)]⟩

/-- The token the middleware stores for `demoTokenString`. -/
def gateToken : Token :=
  ⟨"HS256", Claims.mapClaims
    [("name", Value.str "user@example.com"), ("role", Value.str "admin"),
     ("exp", Value.float64 1730518400)]⟩

/-- The seed books of `main`. -/
def seedBooks : List Book :=
  [⟨1, "1984", "George Orwell"⟩, ⟨2, "The Great Gatsby", "F. Scott Fitzgerald"⟩]

/-- The eight routes `main` registers behind the two middlewares, lines 85 to 94. -/
def resourceRoutes (d : Deps) : App :=
  [⟨"getBooks", some "GET", "/books", onBooks d.getBooks⟩,
   ⟨"getBook", some "GET", "/books/:id", onBooks d.getBook⟩,
   ⟨"createBook", some "POST", "/books", onBooks d.createBook⟩,
   ⟨"updateBook", some "PUT", "/books/:id", onBooks d.updateBook⟩,
   ⟨"deleteBook", some "DELETE", "/books/:id", onBooks d.deleteBook⟩,
   ⟨"uploadFile", some "POST", "/upload", terminal (fun _ => uploadFile d)⟩,
   ⟨"testHTML", some "GET", "/test-html", terminal (fun _ => testHTML d)⟩,
   ⟨"getEnv", some "GET", "/config", terminal (fun _ => getEnv d)⟩]

/-- The names of the handlers of `resourceRoutes`. -/
def resourceNames : List String :=
  ["getBooks", "getBook", "createBook", "updateBook", "deleteBook", "uploadFile",
   "testHTML", "getEnv"]


/-! ## Issuing tokens -/

theorem quo_hours : quo (Hour * 72) 1000000000 = 259200 := by
  simp [quo, Hour]

theorem rem_hours : rem (Hour * 72) 1000000000 = 0 := by
  simp [rem, Hour]

/-- Adding 72 hours moves the Unix seconds forward by 259200, as long as the seconds
that package `time` counts from year 1 stay within `int64`. -/
theorem unix_add_72h (now : Time)
    (hrange : now.Unix + 259200 + 62135596800 < 9223372036854775808) :
    (now.Add (Hour * 72)).Unix = now.Unix + 259200 := by
  have h1 := now.nsec_lt
  have h2 := now.ext_ge
  have h3 := now.ext_lt
  unfold Time.Add
  simp only [quo_hours, rem_hours]
  unfold Time.Unix unixToInternal wrap64 at hrange
  rw [dif_neg (by omega), dif_neg (by omega)]
  unfold Time.addSec Time.Unix unixToInternal wrap64
  simp only []
  split
  · simp only []; omega
  · rename_i hne
    exfalso
    apply hne
    simp only [decide_eq_decide]
    omega

/-- The token `login` builds: method HS256 and the three claims. -/
theorem loginToken_eq (user : User) (now : Time) :
    loginToken user now = some ⟨"HS256", Claims.mapClaims
      [("name", Value.str user.Email), ("role", Value.str "admin"),
       ("exp", Value.int64 (now.Add (Hour * 72)).Unix)]⟩ := by
  simp [loginToken, jwtNew, SigningMethodHS256, MapClaims.set]

/-- What `login` does once the body has parsed and the credentials are the member's:
it hands the token of `loginToken` and the key of the environment to the signer. -/
theorem login_of_member (d : Deps) (now : Time) (c : Ctx) (user : User)
    (hbody : d.BodyParser c.req = Except.ok user)
    (hemail : user.Email = "user@example.com") (hpw : user.Password = "password123") :
    login d now c =
      match d.SignedString ⟨"HS256", Claims.mapClaims
          [("name", Value.str user.Email), ("role", Value.str "admin"),
           ("exp", Value.int64 (now.Add (Hour * 72)).Unix)]⟩ (d.Getenv "JWT_SECRET") with
      | Except.error _ =>
        Outcome.sent StatusInternalServerError (Body.text "Internal Server Error")
      | Except.ok t =>
        Outcome.sent StatusOK
          (Body.json [("message", Value.str "Login success"), ("token", Value.str t)]) := by
  unfold login
  rw [hbody]
  simp only [loginToken_eq, memberUser, hemail, hpw]
  simp

/-- What `login` does once the body has parsed and the credentials are not the member's. -/
theorem login_of_stranger (d : Deps) (now : Time) (c : Ctx) (user : User)
    (hbody : d.BodyParser c.req = Except.ok user)
    (hbad : user.Email ≠ "user@example.com" ∨ user.Password ≠ "password123") :
    login d now c = Outcome.error ErrUnauthorized := by
  unfold login
  rw [hbody]
  simp only [memberUser]
  rcases hbad with h | h <;> simp [h]

/-- C1: when the body parses to the member's email and password and signing succeeds,
`login` answers 200 with the message "Login success" and the signed token, and the
token it signed has role "admin" and name equal to the submitted email. -/
theorem login_success (d : Deps) (now : Time) (c : Ctx) (user : User) (t : String)
    (hbody : d.BodyParser c.req = Except.ok user)
    (hemail : user.Email = "user@example.com") (hpw : user.Password = "password123")
    (hsign : ∀ tok, loginToken user now = some tok →
      d.SignedString tok (d.Getenv "JWT_SECRET") = Except.ok t) :
    ∃ tok m, loginToken user now = some tok ∧ tok.Claims = Claims.mapClaims m ∧
      d.SignedString tok (d.Getenv "JWT_SECRET") = Except.ok t ∧
      m.get "role" = Value.str "admin" ∧ m.get "name" = Value.str user.Email ∧
      login d now c = Outcome.sent 200
        (Body.json [("message", Value.str "Login success"), ("token", Value.str t)]) := by
  have hs := hsign _ (loginToken_eq user now)
  refine ⟨_, _, loginToken_eq user now, rfl, hs, ?_, ?_, ?_⟩
  · simp [MapClaims.get, List.lookup]
  · simp [MapClaims.get, List.lookup]
  · rw [login_of_member d now c user hbody hemail hpw, hs]
    rfl

set_option maxRecDepth 1000000 in
theorem login_success_witness :
    (demoDeps "s3cret").BodyParser loginRequest = Except.ok memberUser ∧
    ∃ tok m, loginToken memberUser demoNow = some tok ∧ tok.Claims = Claims.mapClaims m ∧
      (demoDeps "s3cret").SignedString tok ((demoDeps "s3cret").Getenv "JWT_SECRET") =
        Except.ok demoTokenString ∧
      m.get "role" = Value.str "admin" ∧ m.get "name" = Value.str memberUser.Email ∧
      login (demoDeps "s3cret") demoNow ⟨loginRequest, []⟩ = Outcome.sent 200
        (Body.json [("message", Value.str "Login success"),
          ("token", Value.str demoTokenString)]) :=
  ⟨rfl, login_success (demoDeps "s3cret") demoNow ⟨loginRequest, []⟩ memberUser
    demoTokenString rfl rfl rfl
    (by intro tok h; rw [loginToken_eq] at h; cases h; rfl)⟩

/-- C2: for a parsed login request, `login` returns Unauthorized exactly when the email
or the password differs from the member's. Then the response has status 401 and no
token, and it is the same whatever the signer, the key and the clock are, so nothing
is signed. An empty email or password is rejected. -/
theorem login_unauthorized_iff (d : Deps) (now : Time) (c : Ctx) (user : User)
    (hbody : d.BodyParser c.req = Except.ok user) :
    (login d now c = Outcome.error ErrUnauthorized ↔
      (user.Email ≠ "user@example.com" ∨ user.Password ≠ "password123")) ∧
    ((user.Email ≠ "user@example.com" ∨ user.Password ≠ "password123") →
      (login d now c).status = some 401 ∧ (login d now c).token = none ∧
      ∀ (d2 : Deps) (now2 : Time), d2.BodyParser c.req = Except.ok user →
        login d2 now2 c = Outcome.error ErrUnauthorized) ∧
    ((user.Email = "" ∨ user.Password = "") →
      login d now c = Outcome.error ErrUnauthorized) := by
  refine ⟨⟨?_, login_of_stranger d now c user hbody⟩, ?_, ?_⟩
  · intro h
    by_contra hne
    have hemail : user.Email = "user@example.com" := by
      by_contra h1; exact hne (Or.inl h1)
    have hpw : user.Password = "password123" := by
      by_contra h1; exact hne (Or.inr h1)
    rw [login_of_member d now c user hbody hemail hpw] at h
    split at h <;> cases h
  · intro hbad
    rw [login_of_stranger d now c user hbody hbad]
    exact ⟨rfl, rfl, fun d2 now2 h2 => login_of_stranger d2 now2 c user h2 hbad⟩
  · intro hempty
    apply login_of_stranger d now c user hbody
    rcases hempty with h | h
    · left; rw [h]; decide
    · right; rw [h]; decide

theorem login_unauthorized_iff_witness :
    (demoDeps "s3cret").BodyParser ⟨"POST", "/login", [], ""⟩ = Except.ok ⟨"", ""⟩ ∧
    login (demoDeps "s3cret") demoNow ⟨⟨"POST", "/login", [], ""⟩, []⟩ =
      Outcome.error ErrUnauthorized :=
  ⟨rfl, (login_unauthorized_iff (demoDeps "s3cret") demoNow ⟨⟨"POST", "/login", [], ""⟩, []⟩
    ⟨"", ""⟩ rfl).2.2 (Or.inl rfl)⟩

/-- C8: at every clock reading whose Unix seconds, counted from year 1 as package
`time` counts them, leave room for 72 hours within `int64`, whenever `login` answers
with a token, the token it signed carries an `exp` claim equal to the Unix seconds of
the clock reading 72 hours on, which is the Unix seconds of the clock reading plus
259200 and so lies strictly after them. -/
theorem login_exp (d : Deps) (now : Time) (c : Ctx) (t : String)
    (hrange : now.Unix + 259200 + 62135596800 < 9223372036854775808)
    (hissued : (login d now c).token = some (Value.str t)) :
    ∃ user tok m, d.BodyParser c.req = Except.ok user ∧ loginToken user now = some tok ∧
      d.SignedString tok (d.Getenv "JWT_SECRET") = Except.ok t ∧
      tok.Claims = Claims.mapClaims m ∧
      m.get "exp" = Value.int64 (now.Add (Hour * 72)).Unix ∧
      (now.Add (Hour * 72)).Unix = now.Unix + 259200 ∧
      now.Unix < (now.Add (Hour * 72)).Unix := by
  cases hb : d.BodyParser c.req with
  | error err => simp [login, hb, Outcome.token] at hissued
  | ok user =>
    by_cases hbad : user.Email ≠ "user@example.com" ∨ user.Password ≠ "password123"
    · rw [login_of_stranger d now c user hb hbad] at hissued
      simp [Outcome.token] at hissued
    · have hemail : user.Email = "user@example.com" := by
        by_contra h1; exact hbad (Or.inl h1)
      have hpw : user.Password = "password123" := by
        by_contra h1; exact hbad (Or.inr h1)
      rw [login_of_member d now c user hb hemail hpw] at hissued
      refine ⟨user, _, _, rfl, loginToken_eq user now, ?_, rfl, ?_,
        unix_add_72h now hrange, ?_⟩
      · split at hissued
        · simp [Outcome.token] at hissued
        · rename_i t2 ht
          simp [Outcome.token, List.lookup] at hissued
          rw [ht, hissued]
      · simp [MapClaims.get, List.lookup]
      · rw [unix_add_72h now hrange]; omega

set_option maxRecDepth 1000000 in
theorem login_exp_witness :
    demoNow.Unix + 259200 + 62135596800 < 9223372036854775808 ∧
    (login (demoDeps "s3cret") demoNow ⟨loginRequest, []⟩).token =
      some (Value.str demoTokenString) ∧
    ∃ user tok m, (demoDeps "s3cret").BodyParser loginRequest = Except.ok user ∧
      loginToken user demoNow = some tok ∧
      (demoDeps "s3cret").SignedString tok ((demoDeps "s3cret").Getenv "JWT_SECRET") =
        Except.ok demoTokenString ∧
      tok.Claims = Claims.mapClaims m ∧
      m.get "exp" = Value.int64 (demoNow.Add (Hour * 72)).Unix ∧
      (demoNow.Add (Hour * 72)).Unix = demoNow.Unix + 259200 ∧
      demoNow.Unix < (demoNow.Add (Hour * 72)).Unix :=
  ⟨by decide, by decide, login_exp (demoDeps "s3cret") demoNow ⟨loginRequest, []⟩
    demoTokenString (by decide) (by decide)⟩

/-- C9: the claims `login` puts into a token are the three keys name, role and exp, with
the submitted email, the constant "admin" and the expiry taken from the clock. One
and the same claims map goes to the signer in every environment: the key and the
signer only decide what is made of it. -/
theorem login_claims_key_free (user : User) (now : Time) :
    ∃ m : MapClaims, loginToken user now = some ⟨"HS256", Claims.mapClaims m⟩ ∧
      m.keys = ["name", "role", "exp"] ∧
      m.get "name" = Value.str user.Email ∧ m.get "role" = Value.str "admin" ∧
      m.get "exp" = Value.int64 (now.Add (Hour * 72)).Unix ∧
      ∀ (d : Deps) (c : Ctx), d.BodyParser c.req = Except.ok user →
        user.Email = "user@example.com" → user.Password = "password123" →
        login d now c =
          match d.SignedString ⟨"HS256", Claims.mapClaims m⟩ (d.Getenv "JWT_SECRET") with
          | Except.error _ =>
            Outcome.sent StatusInternalServerError (Body.text "Internal Server Error")
          | Except.ok t =>
            Outcome.sent StatusOK
              (Body.json [("message", Value.str "Login success"), ("token", Value.str t)]) := by
  refine ⟨_, loginToken_eq user now, rfl, ?_, ?_, ?_, ?_⟩
  · simp [MapClaims.get, List.lookup]
  · simp [MapClaims.get, List.lookup]
  · simp [MapClaims.get, List.lookup]
  · intro d c hb he hp
    exact login_of_member d now c user hb he hp

set_option maxRecDepth 1000000 in
theorem login_claims_key_free_witness :
    ∃ m : MapClaims, m.keys = ["name", "role", "exp"] ∧
      login (demoDeps "s3cret") demoNow ⟨loginRequest, []⟩ =
        (match (demoDeps "s3cret").SignedString ⟨"HS256", Claims.mapClaims m⟩ "s3cret" with
          | Except.error _ =>
            Outcome.sent StatusInternalServerError (Body.text "Internal Server Error")
          | Except.ok t =>
            Outcome.sent StatusOK
              (Body.json [("message", Value.str "Login success"), ("token", Value.str t)])) ∧
      login (demoDeps "other") demoNow ⟨loginRequest, []⟩ =
        (match (demoDeps "other").SignedString ⟨"HS256", Claims.mapClaims m⟩ "other" with
          | Except.error _ =>
            Outcome.sent StatusInternalServerError (Body.text "Internal Server Error")
          | Except.ok t =>
            Outcome.sent StatusOK
              (Body.json [("message", Value.str "Login success"), ("token", Value.str t)])) :=
  match login_claims_key_free memberUser demoNow with
  | ⟨m, _, hk, _, _, _, h⟩ =>
    ⟨m, hk, h (demoDeps "s3cret") ⟨loginRequest, []⟩ rfl rfl rfl,
      h (demoDeps "other") ⟨loginRequest, []⟩ rfl rfl rfl⟩

/-! ## The role check -/

/-- C3: with a token under `user` whose claims are a claims map, `checkMiddleware` runs
the rest of the chain exactly when the role claim is the string "admin". For any
other role value, and for a map without a role key, it returns Unauthorized whatever
the rest of the chain is, so the next handler is not called. -/
theorem checkMiddleware_admin_iff (c : Ctx) (s : Server) (tok : Token) (m : MapClaims)
    (huser : c.Locals "user" = some tok) (hclaims : tok.Claims = Claims.mapClaims m) :
    (m.get "role" = Value.str "admin" → ∀ next : Next, checkMiddleware c s next = next c s) ∧
    (m.get "role" ≠ Value.str "admin" →
      ∀ next : Next, checkMiddleware c s next = (Outcome.error ErrUnauthorized, s)) ∧
    (m.lookup "role" = none →
      ∀ next : Next, checkMiddleware c s next = (Outcome.error ErrUnauthorized, s)) ∧
    ((∀ next : Next, checkMiddleware c s next = next c s) ↔
      m.get "role" = Value.str "admin") := by
  have hyes : m.get "role" = Value.str "admin" →
      ∀ next : Next, checkMiddleware c s next = next c s := by
    intro h next
    simp [checkMiddleware, huser, hclaims, h]
  have hno : m.get "role" ≠ Value.str "admin" →
      ∀ next : Next, checkMiddleware c s next = (Outcome.error ErrUnauthorized, s) := by
    intro h next
    simp [checkMiddleware, huser, hclaims, h]
  refine ⟨hyes, hno, ?_, ?_, hyes⟩
  · intro h
    apply hno
    simp [MapClaims.get, h]
  · intro h
    by_contra hne
    have h1 := h (fun _ _ => (Outcome.panic, s))
    rw [hno hne] at h1
    cases h1

theorem checkMiddleware_admin_iff_witness :
    (∀ next : Next,
      checkMiddleware ⟨loginRequest, [("user", demoToken)]⟩ ⟨seedBooks, []⟩ next =
        next ⟨loginRequest, [("user", demoToken)]⟩ ⟨seedBooks, []⟩) ∧
    (∀ next : Next,
      checkMiddleware
        ⟨loginRequest, [("user", ⟨"HS256", Claims.mapClaims [("role", Value.str "guest")]⟩)]⟩
        ⟨seedBooks, []⟩ next = (Outcome.error ErrUnauthorized, ⟨seedBooks, []⟩)) ∧
    (∀ next : Next,
      checkMiddleware
        ⟨loginRequest, [("user", ⟨"HS256", Claims.mapClaims [("role", Value.bool true)]⟩)]⟩
        ⟨seedBooks, []⟩ next = (Outcome.error ErrUnauthorized, ⟨seedBooks, []⟩)) ∧
    (∀ next : Next,
      checkMiddleware
        ⟨loginRequest, [("user", ⟨"HS256", Claims.mapClaims [("name", Value.str "admin")]⟩)]⟩
        ⟨seedBooks, []⟩ next = (Outcome.error ErrUnauthorized, ⟨seedBooks, []⟩)) :=
  ⟨(checkMiddleware_admin_iff ⟨loginRequest, [("user", demoToken)]⟩ ⟨seedBooks, []⟩
      demoToken _ rfl rfl).1 (by decide),
   (checkMiddleware_admin_iff
      ⟨loginRequest, [("user", ⟨"HS256", Claims.mapClaims [("role", Value.str "guest")]⟩)]⟩ ⟨seedBooks, []⟩
      ⟨"HS256", Claims.mapClaims [("role", Value.str "guest")]⟩ _ rfl rfl).2.1 (by decide),
   (checkMiddleware_admin_iff
      ⟨loginRequest, [("user", ⟨"HS256", Claims.mapClaims [("role", Value.bool true)]⟩)]⟩ ⟨seedBooks, []⟩
      ⟨"HS256", Claims.mapClaims [("role", Value.bool true)]⟩ _ rfl rfl).2.1 (by decide),
   (checkMiddleware_admin_iff
      ⟨loginRequest, [("user", ⟨"HS256", Claims.mapClaims [("name", Value.str "admin")]⟩)]⟩ ⟨seedBooks, []⟩
      ⟨"HS256", Claims.mapClaims [("name", Value.str "admin")]⟩ _ rfl rfl).2.2.1 (by decide)⟩


/-! ## The route stack of `main` -/

/-- What the token middleware built from a key does with a request. -/
theorem jwtwareNew_run (d : Deps) (key : String) (jw : Handler)
    (h : jwtwareNew d ⟨some key⟩ = some jw) (now : Time) (c : Ctx) (s : Server) (next : Next) :
    jw now c s next =
      match jwtFromHeader "Authorization" "Bearer" c with
      | Except.error err => (defaultErrorHandler err, s)
      | Except.ok auth =>
        match d.Parse key now auth with
        | Except.ok token => next (c.setLocals "user" token) s
        | Except.error err => (defaultErrorHandler err.Error, s) := by
  simp only [jwtwareNew, Option.some.injEq] at h
  subst h
  rfl

/-- When `main` reaches `app.Listen`, the load succeeded, the address, the key and the
books are the ones of the source, and the stack holds the twelve routes in order. -/
theorem main_listening (d : Deps) (addr key : String) (app : App) (books : List Book)
    (h : main d = Startup.listening addr key app books) :
    addr = ":8080" ∧ key = d.Getenv "JWT_SECRET" ∧ books = seedBooks ∧
    d.Load = Except.ok () ∧
    ∃ jw, jwtwareNew d ⟨some key⟩ = some jw ∧
      app =
        ⟨"swagger.HandlerDefault", some "GET", "/swagger/*", swaggerHandler d⟩ ::
        ⟨"login", some "POST", "/login", terminal (login d)⟩ ::
        ⟨"jwtware", none, "/", jw⟩ ::
        ⟨"checkMiddleware", none, "/", fun _ => checkMiddleware⟩ ::
        resourceRoutes d := by
  unfold main at h
  cases hl : d.Load with
  | error e => rw [hl] at h; cases h
  | ok u =>
    rw [hl] at h
    simp only [jwtwareNew, App.Get, App.Post, App.Put, App.Delete, App.Use,
      List.nil_append, List.cons_append, Startup.listening.injEq] at h
    obtain ⟨h1, h2, h3, h4⟩ := h
    subst h1 h2 h3 h4
    exact ⟨rfl, rfl, rfl, rfl, _, rfl, rfl⟩

/-- Behind the gate one handler runs at most: either no route takes the request and
nothing changes, or the trace grows by the name of one resource handler. -/
theorem dispatch_resources (d : Deps) (now : Time) (c : Ctx) (s : Server) :
    dispatch d now (resourceRoutes d) c s = (d.notFound c.req, s) ∨
    ∃ h, h ∈ resourceNames ∧ (dispatch d now (resourceRoutes d) c s).2.trace = s.trace ++ [h] := by
  simp only [resourceRoutes, dispatch, Route.matches, onBooks, terminal, resourceNames]
  split_ifs <;> simp

/-- A request that one of the five book routes takes does get a handler behind the gate. -/
theorem dispatch_resources_book (d : Deps) (now : Time) (c : Ctx) (s : Server)
    (hbook : d.routeMatch "GET" "/books" c.req = true ∨
      d.routeMatch "GET" "/books/:id" c.req = true ∨
      d.routeMatch "POST" "/books" c.req = true ∨
      d.routeMatch "PUT" "/books/:id" c.req = true ∨
      d.routeMatch "DELETE" "/books/:id" c.req = true) :
    ∃ h, h ∈ resourceNames ∧ (dispatch d now (resourceRoutes d) c s).2.trace = s.trace ++ [h] := by
  simp only [resourceRoutes, dispatch, Route.matches, onBooks, terminal, resourceNames]
  split_ifs <;> simp_all

/-- The two middlewares and the routes behind them, from any point of the walk. -/
theorem dispatch_gate (d : Deps) (key : String) (jw : Handler)
    (hjw : jwtwareNew d ⟨some key⟩ = some jw) (now : Time) (c : Ctx) (s : Server) :
    dispatch d now (⟨"jwtware", none, "/", jw⟩ ::
        ⟨"checkMiddleware", none, "/", fun _ => checkMiddleware⟩ :: resourceRoutes d) c s =
      match jwtFromHeader "Authorization" "Bearer" c with
      | Except.error err => (defaultErrorHandler err, ⟨s.books, s.trace ++ ["jwtware"]⟩)
      | Except.ok auth =>
        match d.Parse key now auth with
        | Except.ok token =>
          checkMiddleware (c.setLocals "user" token)
            ⟨s.books, s.trace ++ ["jwtware", "checkMiddleware"]⟩
            (dispatch d now (resourceRoutes d))
        | Except.error err =>
          (defaultErrorHandler err.Error, ⟨s.books, s.trace ++ ["jwtware"]⟩) := by
  simp only [dispatch, Route.matches, if_true, jwtwareNew_run d key jw hjw]
  split
  · rfl
  · split
    · simp
    · rfl

/-- Serving a request on the stack of `main`: the swagger route and the login route
come first, then the gate. -/
theorem serve_main (d : Deps) (addr key : String) (app : App) (books : List Book)
    (hmain : main d = Startup.listening addr key app books)
    (now : Time) (req : Request) (bs : List Book) :
    serve d now app req bs =
      if d.routeMatch "GET" "/swagger/*" req = true then
        match d.swagger ⟨req, []⟩ with
        | SwaggerAct.respond o => (o, ⟨bs, ["swagger.HandlerDefault"]⟩)
        | SwaggerAct.next =>
          if d.routeMatch "POST" "/login" req = true then
            (login d now ⟨req, []⟩, ⟨bs, ["swagger.HandlerDefault", "login"]⟩)
          else
            dispatch d now (app.drop 2) ⟨req, []⟩ ⟨bs, ["swagger.HandlerDefault"]⟩
      else if d.routeMatch "POST" "/login" req = true then
        (login d now ⟨req, []⟩, ⟨bs, ["login"]⟩)
      else
        dispatch d now (app.drop 2) ⟨req, []⟩ ⟨bs, []⟩ := by
  obtain ⟨_, _, _, _, jw, _, happ⟩ := main_listening d addr key app books hmain
  subst happ
  simp only [serve, dispatch, Route.matches, swaggerHandler, terminal, List.drop,
    List.nil_append, List.cons_append]

/-- The gate on the stack of `main`, from any point of the walk. -/
theorem dispatch_main_gate (d : Deps) (addr key : String) (app : App) (books : List Book)
    (hmain : main d = Startup.listening addr key app books)
    (now : Time) (c : Ctx) (s : Server) :
    dispatch d now (app.drop 2) c s =
      match jwtFromHeader "Authorization" "Bearer" c with
      | Except.error err => (defaultErrorHandler err, ⟨s.books, s.trace ++ ["jwtware"]⟩)
      | Except.ok auth =>
        match d.Parse key now auth with
        | Except.ok token =>
          checkMiddleware (c.setLocals "user" token)
            ⟨s.books, s.trace ++ ["jwtware", "checkMiddleware"]⟩
            (dispatch d now (resourceRoutes d))
        | Except.error err =>
          (defaultErrorHandler err.Error, ⟨s.books, s.trace ++ ["jwtware"]⟩) := by
  obtain ⟨_, _, _, _, jw, hjw, happ⟩ := main_listening d addr key app books hmain
  subst happ
  exact dispatch_gate d key jw hjw now c s

/-- The role check on a context that the token middleware has just filled. -/
theorem checkMiddleware_after_jwt (c : Ctx) (tok : Token) (s : Server) (next : Next) :
    checkMiddleware (c.setLocals "user" tok) s next =
      match tok.Claims with
      | Claims.custom _ => (Outcome.panic, s)
      | Claims.mapClaims claims =>
        if claims.get "role" != Value.str "admin" then (Outcome.error ErrUnauthorized, s)
        else next (c.setLocals "user" tok) s := by
  simp [checkMiddleware, Ctx.Locals, Ctx.setLocals, List.lookup]

/-- Behind the gate: a resource handler that shows up in the trace was either there
before, or the token middleware accepted the request and the role claim is "admin";
and as long as no resource handler shows up, the books are as they were. -/
theorem gate_sound (d : Deps) (addr key : String) (app : App) (books : List Book)
    (hmain : main d = Startup.listening addr key app books)
    (now : Time) (c : Ctx) (s : Server) :
    (∀ h, h ∈ resourceNames → h ∈ (dispatch d now (app.drop 2) c s).2.trace →
      h ∈ s.trace ∨
      ∃ auth tok m, jwtFromHeader "Authorization" "Bearer" c = Except.ok auth ∧
        d.Parse key now auth = Except.ok tok ∧ tok.Claims = Claims.mapClaims m ∧
        m.get "role" = Value.str "admin") ∧
    ((∀ h, h ∈ resourceNames → h ∉ (dispatch d now (app.drop 2) c s).2.trace) →
      (dispatch d now (app.drop 2) c s).2.books = s.books) := by
  rw [dispatch_main_gate d addr key app books hmain now c s]
  cases hx : jwtFromHeader "Authorization" "Bearer" c with
  | error err =>
    dsimp only
    refine ⟨?_, fun _ => rfl⟩
    intro h hr hin
    simp only [List.mem_append, List.mem_singleton] at hin
    rcases hin with hin | hin
    · exact Or.inl hin
    · subst hin; simp [resourceNames] at hr
  | ok auth =>
    dsimp only
    cases hp : d.Parse key now auth with
    | error err =>
      dsimp only
      refine ⟨?_, fun _ => rfl⟩
      intro h hr hin
      simp only [List.mem_append, List.mem_singleton] at hin
      rcases hin with hin | hin
      · exact Or.inl hin
      · subst hin; simp [resourceNames] at hr
    | ok tok =>
      dsimp only
      rw [checkMiddleware_after_jwt]
      cases hc : tok.Claims with
      | custom desc =>
        dsimp only
        refine ⟨?_, fun _ => rfl⟩
        intro h hr hin
        simp only [List.mem_append, List.mem_cons, List.mem_singleton, List.mem_nil_iff,
          or_false] at hin
        rcases hin with hin | hin | hin
        · exact Or.inl hin
        · subst hin; simp [resourceNames] at hr
        · subst hin; simp [resourceNames] at hr
      | mapClaims m =>
        dsimp only
        by_cases hrole : m.get "role" = Value.str "admin"
        · have hb : (m.get "role" != Value.str "admin") = false := by simp [hrole]
          rw [if_neg (by simp [hb])]
          refine ⟨fun h _ _ => Or.inr ⟨auth, tok, m, rfl, hp, hc, hrole⟩, ?_⟩
          intro hnone
          rcases dispatch_resources d now (c.setLocals "user" tok)
              ⟨s.books, s.trace ++ ["jwtware", "checkMiddleware"]⟩ with h0 | ⟨h, hr, ht⟩
          · rw [h0]
          · exfalso
            apply hnone h hr
            rw [ht]
            simp
        · have hb : (m.get "role" != Value.str "admin") = true := by simpa using hrole
          rw [if_pos hb]
          refine ⟨?_, fun _ => rfl⟩
          intro h hr hin
          simp only [List.mem_append, List.mem_cons, List.mem_singleton, List.mem_nil_iff,
            or_false] at hin
          rcases hin with hin | hin | hin
          · exact Or.inl hin
          · subst hin; simp [resourceNames] at hr
          · subst hin; simp [resourceNames] at hr

/-- A request that neither the swagger route nor the login route takes starts at the gate. -/
theorem serve_at_gate (d : Deps) (addr key : String) (app : App) (books : List Book)
    (hmain : main d = Startup.listening addr key app books)
    (now : Time) (req : Request) (bs : List Book)
    (hsw : d.routeMatch "GET" "/swagger/*" req = false)
    (hlg : d.routeMatch "POST" "/login" req = false) :
    serve d now app req bs =
      match jwtFromHeader "Authorization" "Bearer" ⟨req, []⟩ with
      | Except.error err => (defaultErrorHandler err, ⟨bs, ["jwtware"]⟩)
      | Except.ok auth =>
        match d.Parse key now auth with
        | Except.ok token =>
          match token.Claims with
          | Claims.custom _ => (Outcome.panic, ⟨bs, ["jwtware", "checkMiddleware"]⟩)
          | Claims.mapClaims claims =>
            if claims.get "role" != Value.str "admin" then
              (Outcome.error ErrUnauthorized, ⟨bs, ["jwtware", "checkMiddleware"]⟩)
            else
              dispatch d now (resourceRoutes d) ⟨req, [("user", token)]⟩
                ⟨bs, ["jwtware", "checkMiddleware"]⟩
        | Except.error err => (defaultErrorHandler err.Error, ⟨bs, ["jwtware"]⟩) := by
  rw [serve_main d addr key app books hmain]
  simp only [hsw, hlg, Bool.false_eq_true, if_false]
  rw [dispatch_main_gate d addr key app books hmain]
  simp only [List.nil_append, checkMiddleware_after_jwt]
  simp only [Ctx.setLocals]

/-- C4: a request to one of the five book routes, which the swagger and login routes do
not take, meets the token middleware first, the role check second and a resource
handler third. If the token middleware rejects,
only it has run; if the role check rejects, only the two have run; in both cases the
books are unchanged. If both pass, one resource handler runs behind them. A resource
handler in the trace means both stages passed, and without one the books are unchanged. -/
theorem gate_chain (d : Deps) (addr key : String) (app : App) (books : List Book)
    (hmain : main d = Startup.listening addr key app books)
    (now : Time) (req : Request) (bs : List Book)
    (hbook : d.routeMatch "GET" "/books" req = true ∨
      d.routeMatch "GET" "/books/:id" req = true ∨
      d.routeMatch "POST" "/books" req = true ∨
      d.routeMatch "PUT" "/books/:id" req = true ∨
      d.routeMatch "DELETE" "/books/:id" req = true)
    (hsw : d.routeMatch "GET" "/swagger/*" req = false)
    (hlg : d.routeMatch "POST" "/login" req = false) :
    (∀ err, jwtFromHeader "Authorization" "Bearer" ⟨req, []⟩ = Except.error err →
      serve d now app req bs = (defaultErrorHandler err, ⟨bs, ["jwtware"]⟩)) ∧
    (∀ auth err, jwtFromHeader "Authorization" "Bearer" ⟨req, []⟩ = Except.ok auth →
      d.Parse key now auth = Except.error err →
      serve d now app req bs = (defaultErrorHandler err.Error, ⟨bs, ["jwtware"]⟩)) ∧
    (∀ auth tok m, jwtFromHeader "Authorization" "Bearer" ⟨req, []⟩ = Except.ok auth →
      d.Parse key now auth = Except.ok tok → tok.Claims = Claims.mapClaims m →
      m.get "role" ≠ Value.str "admin" →
      serve d now app req bs =
        (Outcome.error ErrUnauthorized, ⟨bs, ["jwtware", "checkMiddleware"]⟩)) ∧
    (∀ auth tok m, jwtFromHeader "Authorization" "Bearer" ⟨req, []⟩ = Except.ok auth →
      d.Parse key now auth = Except.ok tok → tok.Claims = Claims.mapClaims m →
      m.get "role" = Value.str "admin" →
      serve d now app req bs =
        dispatch d now (resourceRoutes d) ⟨req, [("user", tok)]⟩
          ⟨bs, ["jwtware", "checkMiddleware"]⟩ ∧
      ∃ h, h ∈ resourceNames ∧
        (serve d now app req bs).2.trace = ["jwtware", "checkMiddleware", h]) ∧
    (∀ h, h ∈ resourceNames → h ∈ (serve d now app req bs).2.trace →
      ∃ auth tok m, jwtFromHeader "Authorization" "Bearer" ⟨req, []⟩ = Except.ok auth ∧
        d.Parse key now auth = Except.ok tok ∧ tok.Claims = Claims.mapClaims m ∧
        m.get "role" = Value.str "admin") ∧
    ((∀ h, h ∈ resourceNames → h ∉ (serve d now app req bs).2.trace) →
      (serve d now app req bs).2.books = bs) := by
  have hs := serve_at_gate d addr key app books hmain now req bs hsw hlg
  have hg : serve d now app req bs = dispatch d now (app.drop 2) ⟨req, []⟩ ⟨bs, []⟩ := by
    rw [serve_main d addr key app books hmain]
    simp [hsw, hlg]
  have hsound := gate_sound d addr key app books hmain now ⟨req, []⟩ ⟨bs, []⟩
  refine ⟨?_, ?_, ?_, ?_, ?_, ?_⟩
  · intro err h1
    rw [hs, h1]
  · intro auth err h1 h2
    rw [hs, h1]
    dsimp only
    rw [h2]
  · intro auth tok m h1 h2 h3 h4
    rw [hs, h1]
    dsimp only
    rw [h2]
    dsimp only
    rw [h3]
    dsimp only
    rw [if_pos (by simpa using h4)]
  · intro auth tok m h1 h2 h3 h4
    have he : serve d now app req bs =
        dispatch d now (resourceRoutes d) ⟨req, [("user", tok)]⟩
          ⟨bs, ["jwtware", "checkMiddleware"]⟩ := by
      rw [hs, h1]
      dsimp only
      rw [h2]
      dsimp only
      rw [h3]
      dsimp only
      rw [if_neg (by simp [h4])]
    refine ⟨he, ?_⟩
    obtain ⟨h, hr, ht⟩ := dispatch_resources_book d now ⟨req, [("user", tok)]⟩
      ⟨bs, ["jwtware", "checkMiddleware"]⟩ hbook
    exact ⟨h, hr, by rw [he, ht]; rfl⟩
  · intro h hr hin
    rw [hg] at hin
    rcases hsound.1 h hr hin with h0 | h0
    · cases h0
    · exact h0
  · intro hnone
    rw [hg] at hnone ⊢
    exact hsound.2 hnone


set_option maxRecDepth 1000000 in
theorem gate_chain_witness :
    ∃ app, main (demoDeps "s3cret") = Startup.listening ":8080" "s3cret" app seedBooks ∧
      serve (demoDeps "s3cret") demoLater app bareDelete seedBooks =
        (Outcome.sent 400 (Body.text "Missing or malformed JWT"), ⟨seedBooks, ["jwtware"]⟩) ∧
      ∃ h, h ∈ resourceNames ∧
        (serve (demoDeps "s3cret") demoLater app signedDelete seedBooks).2.trace =
          ["jwtware", "checkMiddleware", h] :=
  ⟨_, rfl,
    (gate_chain (demoDeps "s3cret") ":8080" "s3cret" _ seedBooks rfl demoLater bareDelete
      seedBooks (by decide) (by decide) (by decide)).1 "Missing or malformed JWT" rfl,
    ((gate_chain (demoDeps "s3cret") ":8080" "s3cret" _ seedBooks rfl demoLater signedDelete
      seedBooks (by decide) (by decide) (by decide)).2.2.2.1 (utf8Bytes demoTokenString)
      gateToken _ rfl rfl rfl (by decide)).2⟩

/-- C10: on the stack `main` builds, the name of a handler registered behind the two
`app.Use` calls enters the trace only for a request whose bearer token the token
middleware accepts and whose role claim is "admin". The swagger route and the login
route stand before the gate: when they take a request their handler runs at once,
whatever the headers are, and `login` needs no token. -/
theorem gate_coverage (d : Deps) (addr key : String) (app : App) (books : List Book)
    (hmain : main d = Startup.listening addr key app books)
    (now : Time) (req : Request) (bs : List Book) :
    (∀ h, h ∈ resourceNames → h ∈ (serve d now app req bs).2.trace →
      ∃ auth tok m, jwtFromHeader "Authorization" "Bearer" ⟨req, []⟩ = Except.ok auth ∧
        d.Parse key now auth = Except.ok tok ∧ tok.Claims = Claims.mapClaims m ∧
        m.get "role" = Value.str "admin") ∧
    (d.routeMatch "GET" "/swagger/*" req = true →
      ∀ o, d.swagger ⟨req, []⟩ = SwaggerAct.respond o →
        serve d now app req bs = (o, ⟨bs, ["swagger.HandlerDefault"]⟩)) ∧
    (d.routeMatch "GET" "/swagger/*" req = false → d.routeMatch "POST" "/login" req = true →
      serve d now app req bs = (login d now ⟨req, []⟩, ⟨bs, ["login"]⟩)) ∧
    (d.routeMatch "GET" "/swagger/*" req = true → d.routeMatch "POST" "/login" req = true →
      d.swagger ⟨req, []⟩ = SwaggerAct.next →
      serve d now app req bs =
        (login d now ⟨req, []⟩, ⟨bs, ["swagger.HandlerDefault", "login"]⟩)) := by
  have hs := serve_main d addr key app books hmain now req bs
  refine ⟨?_, ?_, ?_, ?_⟩
  · intro h hr hin
    rw [hs] at hin
    by_cases h1 : d.routeMatch "GET" "/swagger/*" req = true
    · rw [if_pos h1] at hin
      cases hw : d.swagger ⟨req, []⟩ with
      | respond o =>
        rw [hw] at hin
        simp only [List.mem_singleton] at hin
        subst hin
        simp [resourceNames] at hr
      | next =>
        rw [hw] at hin
        dsimp only at hin
        by_cases h2 : d.routeMatch "POST" "/login" req = true
        · rw [if_pos h2] at hin
          simp only [List.mem_cons, List.mem_singleton, List.mem_nil_iff, or_false] at hin
          rcases hin with hin | hin <;> subst hin <;> simp [resourceNames] at hr
        · rw [if_neg h2] at hin
          rcases (gate_sound d addr key app books hmain now ⟨req, []⟩
            ⟨bs, ["swagger.HandlerDefault"]⟩).1 h hr hin with h0 | h0
          · simp only [List.mem_singleton] at h0
            subst h0
            simp [resourceNames] at hr
          · exact h0
    · rw [if_neg h1] at hin
      by_cases h2 : d.routeMatch "POST" "/login" req = true
      · rw [if_pos h2] at hin
        simp only [List.mem_singleton] at hin
        subst hin
        simp [resourceNames] at hr
      · rw [if_neg h2] at hin
        rcases (gate_sound d addr key app books hmain now ⟨req, []⟩ ⟨bs, []⟩).1 h hr hin
          with h0 | h0
        · cases h0
        · exact h0
  · intro h1 o hw
    rw [hs, if_pos h1, hw]
  · intro h1 h2
    rw [hs, if_neg (by simp [h1]), if_pos h2]
  · intro h1 h2 hw
    rw [hs, if_pos h1, hw]
    dsimp only
    rw [if_pos h2]

theorem gate_coverage_witness :
    ∃ app, main (demoDeps "s3cret") = Startup.listening ":8080" "s3cret" app seedBooks ∧
      serve (demoDeps "s3cret") demoNow app loginRequest seedBooks =
        (login (demoDeps "s3cret") demoNow ⟨loginRequest, []⟩, ⟨seedBooks, ["login"]⟩) ∧
      serve (demoDeps "s3cret") demoNow app ⟨"GET", "/swagger/index.html", [], ""⟩ seedBooks =
        (Outcome.sent StatusOK (Body.text "swagger"), ⟨seedBooks, ["swagger.HandlerDefault"]⟩) :=
  ⟨_, rfl,
    (gate_coverage (demoDeps "s3cret") ":8080" "s3cret" _ seedBooks rfl demoNow loginRequest
      seedBooks).2.2.1 (by decide) (by decide),
    (gate_coverage (demoDeps "s3cret") ":8080" "s3cret" _ seedBooks rfl demoNow
      ⟨"GET", "/swagger/index.html", [], ""⟩ seedBooks).2.1 (by decide) _ rfl⟩

/-- What the extractor does with an `Authorization` header: it takes the bytes behind
the seventh when there are any and the first six are `Bearer` up to case. -/
theorem jwtFromHeader_present (c : Ctx) (auth : Bytes)
    (h : c.req.headers.lookup "Authorization" = some auth) :
    jwtFromHeader "Authorization" "Bearer" c =
      if 7 < auth.length ∧ equalFold (auth.take 6) (utf8Bytes "Bearer") = true then
        Except.ok (auth.drop 7)
      else Except.error "Missing or malformed JWT" := by
  have h6 : (utf8Bytes "Bearer").length = 6 := by decide
  unfold jwtFromHeader
  simp only [Ctx.Get, h, Option.getD_some, h6]
  by_cases hc : 7 < auth.length ∧ equalFold (auth.take 6) (utf8Bytes "Bearer") = true
  · rw [if_pos hc]
    simp [hc.1, hc.2]
  · rw [if_neg hc]
    rw [if_neg]
    intro hx
    apply hc
    simpa using hx

/-- C7, as amended: `main` ends fatally before serving exactly when loading the `.env`
file fails. Once the load has succeeded it reaches `app.Listen` on `:8080` with the
signing key set to whatever `JWT_SECRET` holds, the empty string included; there is
no check of the key. -/
theorem startup_fatal_iff_load (d : Deps) :
    (∀ e, d.Load = Except.error e → main d = Startup.fatal "load .env error") ∧
    (d.Load = Except.ok () →
      ∃ app, main d = Startup.listening ":8080" (d.Getenv "JWT_SECRET") app seedBooks) ∧
    (∀ addr key app books, main d = Startup.listening addr key app books →
      d.Load = Except.ok () ∧ key = d.Getenv "JWT_SECRET") := by
  refine ⟨?_, ?_, ?_⟩
  · intro e h
    simp [main, h]
  · intro h
    simp only [main, h, jwtwareNew]
    exact ⟨_, rfl⟩
  · intro addr key app books h
    obtain ⟨_, hk, _, hl, _⟩ := main_listening d addr key app books h
    exact ⟨hl, hk⟩

theorem startup_fatal_iff_load_witness :
    (demoDeps "s3cret").Load = Except.ok () ∧
    ∃ app, main (demoDeps "s3cret") =
      Startup.listening ":8080" ((demoDeps "s3cret").Getenv "JWT_SECRET") app seedBooks :=
  ⟨rfl, (startup_fatal_iff_load (demoDeps "s3cret")).2.1 rfl⟩

set_option maxRecDepth 1000000 in
/-- C7 as stated fails: with `JWT_SECRET` empty and the `.env` file loaded, `main`
reaches `app.Listen` with the empty signing key, and `login` signs with it. -/
theorem listening_with_empty_key :
    (demoDeps "").Getenv "JWT_SECRET" = "" ∧
    (∃ app, main (demoDeps "") = Startup.listening ":8080" "" app seedBooks) ∧
    login (demoDeps "") demoNow ⟨loginRequest, []⟩ =
      Outcome.sent 200 (Body.json [("message", Value.str "Login success"),
        ("token", Value.str (issue demoMac "" "HS256" demoClaims))]) :=
  ⟨rfl, ⟨_, rfl⟩, by decide⟩

/-! ## Round trip -/

theorem decNat_zero (cs : List Char) :
    decNat ('0' :: cs) =
      match decNat cs with
      | some (v, r) => some (2 * v, r)
      | none => none := by
  rfl

theorem decNat_one (cs : List Char) :
    decNat ('1' :: cs) =
      match decNat cs with
      | some (v, r) => some (2 * v + 1, r)
      | none => none := by
  rfl

/-- A serialized number is read back, whatever follows it. -/
theorem decNat_bitsAux (fuel : Nat) : ∀ (n : Nat) (rest : List Char), n < 2 ^ fuel →
    decNat (bitsAux fuel n ++ ';' :: rest) = some (n, rest) := by
  induction fuel with
  | zero =>
    intro n rest h
    have : n = 0 := by simpa using h
    subst this
    rfl
  | succ f ih =>
    intro n rest h
    unfold bitsAux
    by_cases h0 : n = 0
    · subst h0; rfl
    · rw [if_neg h0]
      have hlt : n / 2 < 2 ^ f := by
        rw [Nat.pow_succ] at h
        omega
      by_cases h1 : n % 2 = 1
      · rw [if_pos h1, List.cons_append, decNat_one, ih _ _ hlt]
        simp only [Option.some.injEq, Prod.mk.injEq, and_true]
        omega
      · rw [if_neg h1, List.cons_append, decNat_zero, ih _ _ hlt]
        simp only [Option.some.injEq, Prod.mk.injEq, and_true]
        omega

theorem decNat_encNat (n : Nat) (rest : List Char) :
    decNat (encNat n ++ rest) = some (n, rest) := by
  unfold encNat
  rw [List.append_assoc]
  exact decNat_bitsAux n n rest (Nat.lt_two_pow n)

theorem decList_encList (ns : List Nat) (rest : List Char) :
    decList ns.length (encList ns ++ rest) = some (ns, rest) := by
  induction ns with
  | nil => rfl
  | cons n ns ih =>
    simp only [List.length_cons, encList, decList, List.append_assoc, decNat_encNat, ih]

/-- A serialized string is read back, whatever follows it. -/
theorem unarmor_armor (s : String) (rest : List Char) :
    unarmor (armor s ++ rest) = some (s, rest) := by
  unfold unarmor armor
  rw [List.append_assoc, decNat_encNat]
  have hl : s.length = (s.data.map Char.toNat).length := by
    rw [List.length_map]; rfl
  simp only []
  rw [hl, decList_encList]
  simp only [List.map_map]
  have : (Char.ofNat ∘ Char.toNat) = id := by
    funext c; simp
  rw [this, List.map_id]

theorem decInt_neg (cs : List Char) :
    decInt ('-' :: cs) =
      match decNat cs with
      | some (v, r) => some (-(v : Int), r)
      | none => none := by
  rfl

theorem decInt_pos (cs : List Char) :
    decInt ('+' :: cs) =
      match decNat cs with
      | some (v, r) => some ((v : Int), r)
      | none => none := by
  rfl

/-- A serialized integer is read back, whatever follows it. -/
theorem decInt_encInt (e : Int) (rest : List Char) :
    decInt (encInt e ++ rest) = some (e, rest) := by
  unfold encInt
  by_cases h : e < 0
  · rw [if_pos h, List.cons_append, decInt_neg, decNat_encNat]
    simp only [Option.some.injEq, Prod.mk.injEq, and_true]
    omega
  · rw [if_neg h, List.cons_append, decInt_pos, decNat_encNat]
    simp only [Option.some.injEq, Prod.mk.injEq, and_true]
    omega

/-- Algorithm and claims are read back from the payload. -/
theorem parsePayload_payload (alg : String) (c : SpecClaims) :
    parsePayload (payload alg c) = some (alg, c) := by
  have h := decInt_encInt c.expiresAt []
  rw [List.append_nil] at h
  unfold parsePayload payload
  simp only [unarmor_armor, h]

theorem plain_append (a b : List Char) (ha : plain a) (hb : plain b) : plain (a ++ b) := by
  intro c hc
  rcases List.mem_append.mp hc with h | h
  · exact ha c h
  · exact hb c h

theorem plain_bitsAux (fuel : Nat) : ∀ n : Nat, plain (bitsAux fuel n) := by
  induction fuel with
  | zero => intro n c hc; cases hc
  | succ f ih =>
    intro n c hc
    unfold bitsAux at hc
    split at hc
    · cases hc
    · rcases List.mem_cons.mp hc with h | h
      · subst h
        split
        · exact Or.inr (Or.inl rfl)
        · exact Or.inl rfl
      · exact ih _ c h

theorem plain_encNat (n : Nat) : plain (encNat n) := by
  apply plain_append _ _ (plain_bitsAux n n)
  intro c hc
  simp only [List.mem_singleton] at hc
  exact Or.inr (Or.inr (Or.inl hc))

theorem plain_encList (ns : List Nat) : plain (encList ns) := by
  induction ns with
  | nil => intro c hc; cases hc
  | cons n ns ih => exact plain_append _ _ (plain_encNat n) ih

theorem plain_armor (s : String) : plain (armor s) :=
  plain_append _ _ (plain_encNat _) (plain_encList _)

theorem plain_encInt (e : Int) : plain (encInt e) := by
  intro c hc
  unfold encInt at hc
  rcases List.mem_cons.mp hc with h | h
  · subst h
    split
    · exact Or.inr (Or.inr (Or.inr (Or.inr rfl)))
    · exact Or.inr (Or.inr (Or.inr (Or.inl rfl)))
  · exact plain_encNat _ c h

theorem plain_payload (alg : String) (c : SpecClaims) : plain (payload alg c) :=
  plain_append _ _ (plain_armor _)
    (plain_append _ _ (plain_armor _) (plain_append _ _ (plain_armor _) (plain_encInt _)))

/-- A text without a dot in front of a dot is cut at that dot. -/
theorem splitDot_append (p s : List Char) (hp : plain p) :
    splitDot (p ++ '.' :: s) = some (p, s) := by
  induction p with
  | nil => rfl
  | cons c p ih =>
    have hc : c ≠ '.' := by
      rcases hp c (List.mem_cons_self c p) with h | h | h | h | h <;> subst h <;> decide
    have hp2 : plain p := fun x hx => hp x (List.mem_cons_of_mem c hx)
    simp only [List.cons_append, splitDot, if_neg hc, List.append_eq, ih hp2]

/-- The round-trip law of the Token Codec: a token issued under a key is verified under
the same key at any clock reading before its expiry, and gives the claims back. -/
theorem verify_issue (mac : String → String → String) (k : String) (cl : SpecClaims)
    (t : Time) (hlt : t.Unix < cl.expiresAt) :
    verify mac k t (issue mac k "HS256" cl) = Except.ok cl := by
  unfold verify issue
  simp only [splitDot_append _ _ (plain_payload "HS256" cl), bne_self_eq_false,
    Bool.false_eq_true, if_false, parsePayload_payload, SigningMethodHS256]
  rw [if_neg (by omega)]

theorem utf8List_append (a b : List Char) : utf8List (a ++ b) = utf8List a ++ utf8List b := by
  induction a with
  | nil => rfl
  | cons c a ih => simp only [List.cons_append, utf8List, List.append_eq, ih, List.append_assoc]

/-- The bytes of an ASCII text are its characters. -/
theorem asciiChars_utf8List (cs : List Char) (h : ∀ c ∈ cs, c.toNat < 128) :
    asciiChars (utf8List cs) = some cs := by
  induction cs with
  | nil => rfl
  | cons c cs ih =>
    have hc : c.toNat < 128 := h c (List.mem_cons_self c cs)
    have h2 : ∀ x ∈ cs, x.toNat < 128 := fun x hx => h x (List.mem_cons_of_mem c hx)
    simp only [utf8List, utf8Char, if_pos hc, List.singleton_append, asciiChars, ih h2,
      Char.ofNat_toNat]

theorem plain_ascii (cs : List Char) (h : plain cs) : ∀ c ∈ cs, c.toNat < 128 := by
  intro c hc
  rcases h c hc with h1 | h1 | h1 | h1 | h1 <;> subst h1 <;> decide

/-- A token string of the codec is ASCII text. -/
theorem asciiChars_issue (mac : String → String → String) (k alg : String) (cl : SpecClaims) :
    asciiChars (utf8Bytes (issue mac k alg cl)) = some (issue mac k alg cl).data := by
  apply asciiChars_utf8List
  intro c hc
  simp only [issue, List.mem_append, List.mem_cons] at hc
  rcases hc with h | h | h
  · exact plain_ascii _ (plain_payload alg cl) c h
  · subst h; decide
  · exact plain_ascii _ (plain_armor _) c h

/-- An integer of at most 53 binary digits is its own `float64`. -/
theorem float64OfInt_exact (n : Int)
    (hlo : -9007199254740992 ≤ n) (hhi : n ≤ 9007199254740992) :
    float64OfInt n = (n : ℚ) := by
  have hr : roundFloat64 n.natAbs = n.natAbs := by
    unfold roundFloat64
    rw [if_pos (by omega)]
  unfold float64OfInt
  rw [hr]
  by_cases h : n < 0
  · rw [if_pos h, Nat.cast_natAbs, abs_of_neg h]
    simp
  · rw [if_neg h, Nat.cast_natAbs, abs_of_nonneg (not_lt.mp h)]

/-- The parser of the codec on a token string of the codec before its expiry. -/
theorem codecParse_issue (mac : String → String → String) (k : String) (cl : SpecClaims)
    (t : Time) (hlt : t.Unix < cl.expiresAt) :
    codecParse mac k t (utf8Bytes (issue mac k "HS256" cl)) =
      Except.ok ⟨"HS256", Claims.mapClaims
        [("name", Value.str cl.identity), ("role", Value.str cl.role),
         ("exp", Value.float64 (float64OfInt cl.expiresAt))]⟩ := by
  unfold codecParse
  rw [asciiChars_issue]
  simp only [verify_issue mac k cl t hlt, SigningMethodHS256]

/-- The extractor takes the token out of a header made of `Bearer`, a blank and a token
string of the codec. -/
theorem jwtFromHeader_bearer (c : Ctx) (t : String) (hne : utf8Bytes t ≠ [])
    (hh : c.req.headers.lookup "Authorization" = some (utf8Bytes ("Bearer " ++ t))) :
    jwtFromHeader "Authorization" "Bearer" c = Except.ok (utf8Bytes t) := by
  have hb : utf8Bytes ("Bearer " ++ t) = [66, 101, 97, 114, 101, 114, 32] ++ utf8Bytes t := by
    unfold utf8Bytes
    rw [String.data_append, utf8List_append]
    rfl
  have hlen : 0 < (utf8Bytes t).length := List.length_pos.mpr hne
  rw [jwtFromHeader_present c _ hh, hb, if_pos]
  · rfl
  · constructor
    · simp only [List.length_append, List.length_cons, List.length_nil]
      omega
    · rfl

theorem utf8Bytes_issue_ne (mac : String → String → String) (k alg : String)
    (cl : SpecClaims) : utf8Bytes (issue mac k alg cl) ≠ [] := by
  intro h
  have h2 := asciiChars_issue mac k alg cl
  rw [h] at h2
  simp only [asciiChars, Option.some.injEq] at h2
  have h3 : (issue mac k alg cl).data.length = 0 := by rw [← h2]; rfl
  simp [issue] at h3

/-- C6: the Token Codec obeys the round-trip law, for every claims value and every clock
reading before its expiry, and in the program linked with the codec the law carries
a token from `login` through the gate. `login` signs with the key of `JWT_SECRET`
and method HS256; the token middleware of `main` verifies with the same key; so at
any clock reading before the expiry claim the middleware extracts and accepts the
token and stores a token with the name and role `login` set and with the same expiry,
now held as a `float64`, and the role check lets the request through to the
resource routes. The expiry is taken to have at most 53 binary digits, so that its
`float64` is exact. -/
theorem token_roundtrip (mac : String → String → String) (d : Deps) (addr key : String)
    (app : App) (books : List Book)
    (hmain : main (withCodec mac d) = Startup.listening addr key app books)
    (now later : Time) (c : Ctx) (user : User) (req : Request) (bs : List Book)
    (hbody : d.BodyParser c.req = Except.ok user)
    (hemail : user.Email = "user@example.com") (hpw : user.Password = "password123")
    (hlo : -9007199254740992 ≤ (now.Add (Hour * 72)).Unix)
    (hhi : (now.Add (Hour * 72)).Unix ≤ 9007199254740992)
    (hlater : later.Unix < (now.Add (Hour * 72)).Unix)
    (hauth : req.headers.lookup "Authorization" =
      some (utf8Bytes ("Bearer " ++
        issue mac key "HS256" ⟨user.Email, "admin", (now.Add (Hour * 72)).Unix⟩)))
    (hsw : d.routeMatch "GET" "/swagger/*" req = false)
    (hlg : d.routeMatch "POST" "/login" req = false) :
    (∀ (k : String) (cl : SpecClaims) (t : Time), t.Unix < cl.expiresAt →
      verify mac k t (issue mac k "HS256" cl) = Except.ok cl) ∧
    login (withCodec mac d) now c = Outcome.sent 200
      (Body.json [("message", Value.str "Login success"),
        ("token", Value.str
          (issue mac key "HS256" ⟨user.Email, "admin", (now.Add (Hour * 72)).Unix⟩))]) ∧
    jwtFromHeader "Authorization" "Bearer" ⟨req, []⟩ =
      Except.ok (utf8Bytes
        (issue mac key "HS256" ⟨user.Email, "admin", (now.Add (Hour * 72)).Unix⟩)) ∧
    (withCodec mac d).Parse key later (utf8Bytes
        (issue mac key "HS256" ⟨user.Email, "admin", (now.Add (Hour * 72)).Unix⟩)) =
      Except.ok ⟨"HS256", Claims.mapClaims
        [("name", Value.str user.Email), ("role", Value.str "admin"),
         ("exp", Value.float64 (((now.Add (Hour * 72)).Unix : Int) : ℚ))]⟩ ∧
    (∀ tok, loginToken user now = some tok →
      claimsOf tok = some ⟨user.Email, "admin", (now.Add (Hour * 72)).Unix⟩ ∧
      claimsOf ⟨"HS256", Claims.mapClaims
        [("name", Value.str user.Email), ("role", Value.str "admin"),
         ("exp", Value.float64 (((now.Add (Hour * 72)).Unix : Int) : ℚ))]⟩ = claimsOf tok) ∧
    serve (withCodec mac d) later app req bs =
      dispatch (withCodec mac d) later (resourceRoutes (withCodec mac d))
        ⟨req, [("user", ⟨"HS256", Claims.mapClaims
          [("name", Value.str user.Email), ("role", Value.str "admin"),
           ("exp", Value.float64 (((now.Add (Hour * 72)).Unix : Int) : ℚ))]⟩)]⟩
        ⟨bs, ["jwtware", "checkMiddleware"]⟩ := by
  obtain ⟨_, hkey, _, _, _⟩ := main_listening (withCodec mac d) addr key app books hmain
  have hkey2 : key = d.Getenv "JWT_SECRET" := hkey
  have hclaims : claimsOf ⟨"HS256", Claims.mapClaims
      [("name", Value.str user.Email), ("role", Value.str "admin"),
       ("exp", Value.int64 (now.Add (Hour * 72)).Unix)]⟩ =
      some ⟨user.Email, "admin", (now.Add (Hour * 72)).Unix⟩ := by
    simp [claimsOf, MapClaims.get, List.lookup]
  have hgate : claimsOf ⟨"HS256", Claims.mapClaims
      [("name", Value.str user.Email), ("role", Value.str "admin"),
       ("exp", Value.float64 (((now.Add (Hour * 72)).Unix : Int) : ℚ))]⟩ =
      some ⟨user.Email, "admin", (now.Add (Hour * 72)).Unix⟩ := by
    simp [claimsOf, MapClaims.get, List.lookup]
  have hx : jwtFromHeader "Authorization" "Bearer" ⟨req, []⟩ =
      Except.ok (utf8Bytes
        (issue mac key "HS256" ⟨user.Email, "admin", (now.Add (Hour * 72)).Unix⟩)) :=
    jwtFromHeader_bearer ⟨req, []⟩ _ (utf8Bytes_issue_ne mac key "HS256" _) hauth
  have hv : (withCodec mac d).Parse key later (utf8Bytes
        (issue mac key "HS256" ⟨user.Email, "admin", (now.Add (Hour * 72)).Unix⟩)) =
      Except.ok ⟨"HS256", Claims.mapClaims
        [("name", Value.str user.Email), ("role", Value.str "admin"),
         ("exp", Value.float64 (((now.Add (Hour * 72)).Unix : Int) : ℚ))]⟩ := by
    have h := codecParse_issue mac key
      ⟨user.Email, "admin", (now.Add (Hour * 72)).Unix⟩ later hlater
    rw [float64OfInt_exact _ hlo hhi] at h
    exact h
  refine ⟨fun k cl t h => verify_issue mac k cl t h, ?_, hx, hv, ?_, ?_⟩
  · rw [login_of_member (withCodec mac d) now c user hbody hemail hpw]
    have hs : (withCodec mac d).SignedString ⟨"HS256", Claims.mapClaims
        [("name", Value.str user.Email), ("role", Value.str "admin"),
         ("exp", Value.int64 (now.Add (Hour * 72)).Unix)]⟩
        ((withCodec mac d).Getenv "JWT_SECRET") =
        Except.ok (issue mac key "HS256"
          ⟨user.Email, "admin", (now.Add (Hour * 72)).Unix⟩) := by
      simp only [withCodec, codecSignedString, hclaims, hkey2]
    rw [hs]
    rfl
  · intro tok htok
    rw [loginToken_eq] at htok
    simp only [Option.some.injEq] at htok
    subst htok
    exact ⟨hclaims, by rw [hclaims, hgate]⟩
  · rw [serve_at_gate (withCodec mac d) addr key app books hmain later req bs hsw hlg, hx]
    dsimp only
    rw [hv]
    simp [MapClaims.get, List.lookup]

set_option maxRecDepth 1000000 in
theorem token_roundtrip_witness :
    ∃ app, main (demoDeps "s3cret") = Startup.listening ":8080" "s3cret" app seedBooks ∧
      login (demoDeps "s3cret") demoNow ⟨loginRequest, []⟩ = Outcome.sent 200
        (Body.json [("message", Value.str "Login success"),
          ("token", Value.str demoTokenString)]) ∧
      (demoDeps "s3cret").Parse "s3cret" demoLater (utf8Bytes demoTokenString) =
        Except.ok gateToken ∧
      serve (demoDeps "s3cret") demoLater app signedDelete seedBooks =
        dispatch (demoDeps "s3cret") demoLater (resourceRoutes (demoDeps "s3cret"))
          ⟨signedDelete, [("user", gateToken)]⟩ ⟨seedBooks, ["jwtware", "checkMiddleware"]⟩ ∧
      serve (demoDeps "s3cret") demoLater app signedDelete seedBooks =
        (Outcome.sent StatusOK Body.empty,
          ⟨[⟨2, "The Great Gatsby", "F. Scott Fitzgerald"⟩],
            ["jwtware", "checkMiddleware", "deleteBook"]⟩) :=
  have h := token_roundtrip demoMac (demoDeps "s3cret") ":8080" "s3cret" _ seedBooks rfl
    demoNow demoLater ⟨loginRequest, []⟩ memberUser signedDelete seedBooks
    rfl rfl rfl (by decide) (by decide) (by decide) (by decide) (by decide) (by decide)
  ⟨_, rfl, h.2.1, h.2.2.2.1, h.2.2.2.2.2, by decide⟩


end BookApi
